import Mathlib

/-!
Verification development for the gatsby-source content ingestion core.

The development shallowly embeds:
* the paginated-fetch state machine
  (`src/directus-service/paginated-request/index.ts`, classes
  `PaginatedRequest` / `PaginatedDirectusApiRequest`, in the revision that
  tracks the request state: fields `_state`, `_receivedError`, methods
  `exec`, `results`, `finished`, `_createResponseGenerator`, `_wrapTimeout`,
  `_handleError`, `_handleComplete`, `_resolveResults`, `_mergeResults`,
  `_resolveNextPageInfo`);
* the bounded-concurrency request queue
  (`src/directus-service/request-queue/index.ts`, class `BasicRequestQueue`:
  `enqueue`, `flush`/`_startFlush`, `_activateRequest`,
  `_handleRequestComplete`, `_handleRequestError`, `_removeActive`);
* the content-mesh relation resolvers
  (`src/content-mesh/content-relation/junction-relation/index.ts` and
  `src/content-mesh/content-relation/simple-relation/index.ts`).

JavaScript numbers that only ever hold integers are embedded as `Int`;
`undefined`/`null`-able values as `Option`; thrown exceptions and promise
rejections as explicit error outcomes.
-/

namespace GatsbySource

/-! ## Paginated request: data model

`PageInfo` mirrors the `PageInfo` interface. -/

structure PageInfo where
  currentOffset : Int
  resultCount : Int
  currentPage : Int
  totalPageCount : Int
  hasNextPage : Bool
  deriving Repr, DecidableEq

/-- The initial page info built at the top of `_createResponseGenerator`. -/
def initPageInfo : PageInfo :=
  { currentOffset := 0
    resultCount := 0
    currentPage := 0
    totalPageCount := 0
    hasNextPage := true }

/-- The `meta` object of a Directus API response (`IAPIMetaList`).  Each of
the three pagination fields may be absent (`undefined` in JS), which
`_resolveNextPageInfo` checks with `typeof x !== 'number'`. -/
structure IAPIMeta where
  result_count : Option Int
  page : Option Int
  page_count : Option Int
  deriving Repr, DecidableEq

/-- The payload of a response: `data` is either an array or a single
record (`_resolveResults` wraps the latter: `Array.isArray(data) ? data : [data]`). -/
inductive RespData (α : Type) where
  | arr (l : List α)
  | single (a : α)
  deriving Repr, DecidableEq

/-- A Directus API response (`IAPIResponse`): data, an optional error
payload (its `message`), and pagination metadata. -/
structure IAPIResponse (α : Type) where
  data : RespData α
  error : Option String
  meta : IAPIMeta
  deriving Repr, DecidableEq

/-- The errors a page advance can reject with:
* `upstream msg` — `_resolveResults` throws `new Error(error.message)`;
* `malformedResponse` — `_resolveNextPageInfo` throws
  `'Unable to determine result or total count'`;
* `requestTimeout` — `_wrapTimeout` rejects with `'Request timed out'`. -/
inductive ReqError where
  | upstream (msg : String)
  | malformedResponse
  | requestTimeout
  deriving Repr, DecidableEq

/-- The request state, mirroring
`type PaginatedRequestState = 'complete::error' | 'complete::success' | 'queued' | 'started'`.
`completeError` carries the `_receivedError` recorded by `_handleError`. -/
inductive RState where
  | queued
  | started
  | completeSuccess
  | completeError (e : ReqError)
  deriving Repr, DecidableEq

/-- Configuration of a `PaginatedDirectusApiRequest`:
`beforeNextPage` and `timeout` come from `PaginatedRequestConfig`,
`chunkSize` and `limit` from `PaginatedDirectusApiRequestConfig`
(defaults `0` and `-1`). -/
structure RequestConfig where
  beforeNextPage : PageInfo → Bool
  timeout : Int
  chunkSize : Int
  limit : Int

/-- The mutable state of one `PaginatedDirectusApiRequest` together with
the position of its response generator.  `sent` is proof instrumentation:
it records, in order, every `PageInfo` passed to `_sendNextRequest`
(i.e. every page request actually issued). -/
structure Machine (α : Type) where
  results : List α
  pageInfo : PageInfo
  state : RState
  sent : List PageInfo
  deriving Repr, DecidableEq

/-- A freshly constructed request: `_results = _initResults() = []`,
generator about to build `initPageInfo`, `_state = 'queued'`. -/
def initMachine (α : Type) : Machine α :=
  { results := [], pageInfo := initPageInfo, state := .queued, sent := [] }

/-- The outcome of one `exec()` call (one `generator.next()`):
the promise resolves with `{ value, done: false }` (`yielded`),
resolves with `{ done: true }` (`done`), or rejects (`failed`). -/
inductive ExecOutcome (α : Type) where
  | yielded (page : List α)
  | done
  | failed (e : ReqError)
  deriving Repr, DecidableEq

/-- Method `_wrapTimeout(prom, timeout)` as a function of the request's duration:
when `timeout` is not a positive number the promise is returned untouched;
otherwise the promise races a rejection that fires after `timeout` ms, so
a request lasting longer than `timeout` rejects with the timeout error. -/
def wrapTimeout (α : Type) (timeout : Int) (duration : Int) (resp : IAPIResponse α) :
    Except ReqError (IAPIResponse α) :=
  if timeout ≤ 0 then .ok resp
  else if duration > timeout then .error .requestTimeout
  else .ok resp

/-- Method `PaginatedDirectusApiRequest._resolveResults`: throw on an error
payload, otherwise return the data as an array. -/
def resolveResults (α : Type) (resp : IAPIResponse α) : Except ReqError (List α) :=
  match resp.error with
  | some msg => .error (.upstream msg)
  | none =>
    match resp.data with
    | .arr l => .ok l
    | .single a => .ok [a]

/-- Method `PaginatedDirectusApiRequest._mergeResults`: `[...currentResults, ...nextResult]`. -/
def mergeResults (α : Type) (currentResults nextResult : List α) : List α :=
  currentResults ++ nextResult

/-- Method `PaginatedDirectusApiRequest._resolveHasNextPage`. -/
def resolveHasNextPage (cfg : RequestConfig) (nextOffset : Int) (page page_count : Int) : Bool :=
  if (cfg.limit ≥ 0 ∧ nextOffset ≥ cfg.limit) ∨ page ≥ page_count then false
  else cfg.chunkSize > 0

/-- Method `PaginatedDirectusApiRequest._resolveTotalPageCount`.
`Math.ceil(limit / chunkSize)` for `limit ≥ 0 < chunkSize` is
`(limit + chunkSize - 1) / chunkSize` in integer division. -/
def resolveTotalPageCount (cfg : RequestConfig) (page_count : Int) : Int :=
  if cfg.limit ≥ 0 ∧ cfg.chunkSize > 0 then (cfg.limit + cfg.chunkSize - 1) / cfg.chunkSize
  else page_count

/-- Method `PaginatedDirectusApiRequest._resolveNextPageInfo`: throws
(`malformedResponse`) when any of `meta.result_count`, `meta.page`,
`meta.page_count` is not a number; otherwise advances the offset by
`Math.min(result_count, limit >= 0 ? limit - this.results.length : Infinity)`.
Note: in the source, `this.results` is the *method* (not its return value),
whose `.length` is its declared parameter count, `0`; so the second operand
of `min` is `limit - 0` when `limit ≥ 0`, and the `min` is skipped (the
`Infinity` branch) when `limit < 0`. -/
def resolveNextPageInfo (α : Type) (cfg : RequestConfig) (pi : PageInfo)
    (resp : IAPIResponse α) : Except ReqError PageInfo :=
  match resp.meta.result_count, resp.meta.page, resp.meta.page_count with
  | some result_count, some page, some page_count =>
    let nextOffset :=
      pi.currentOffset +
        (if cfg.limit ≥ 0 then min result_count (cfg.limit - 0) else result_count)
    .ok
      { currentOffset := nextOffset
        hasNextPage := resolveHasNextPage cfg nextOffset page page_count
        resultCount := result_count
        currentPage := page
        totalPageCount := resolveTotalPageCount cfg page_count }
  | _, _, _ => .error .malformedResponse

/-- One `exec()` call, i.e. one `this._responseGenerator.next()`.

`server` models `_sendNextRequest` together with the network: for the
page info of the request it gives the response that the returned promise
settles with and how long the request takes (the duration is consumed by
the `_wrapTimeout` race).

* On a terminal state the generator has already returned (after
  `_handleComplete`) or thrown (after `_handleError`), so `next()`
  resolves with `{ done: true }` and nothing changes.
* Otherwise `exec` moves `'queued'` to `'started'` and resumes the
  generator loop of `_createResponseGenerator`: while
  `pageInfo.hasNextPage && this._beforeNextPage(pageInfo, this)`,
  send the request (wrapped in the timeout race), resolve the results,
  merge them into `_results`, resolve the next page info, and yield;
  a throw anywhere in the body runs `_handleError` and rethrows; loop
  exit runs `_handleComplete`. -/
def exec (α : Type) (cfg : RequestConfig) (server : PageInfo → IAPIResponse α × Int)
    (m : Machine α) : Machine α × ExecOutcome α :=
  match m.state with
  | .completeSuccess => (m, .done)
  | .completeError _ => (m, .done)
  | _ =>
    let m := { m with state := .started }
    if m.pageInfo.hasNextPage && cfg.beforeNextPage m.pageInfo then
      let (resp, duration) := server m.pageInfo
      let m := { m with sent := m.sent ++ [m.pageInfo] }
      match wrapTimeout α cfg.timeout duration resp with
      | .error e => ({ m with state := .completeError e }, .failed e)
      | .ok resp =>
        match resolveResults α resp with
        | .error e => ({ m with state := .completeError e }, .failed e)
        | .ok pageData =>
          let m := { m with results := mergeResults α m.results pageData }
          match resolveNextPageInfo α cfg m.pageInfo resp with
          | .error e => ({ m with state := .completeError e }, .failed e)
          | .ok pi => ({ m with pageInfo := pi }, .yielded pageData)
    else
      ({ m with state := .completeSuccess }, .done)

/-- Repeatedly call `exec`, keeping only the machine.  Once the machine is
terminal, further `exec` calls leave it unchanged, so iterating models
"repeatedly calling `exec`". -/
def drive (α : Type) (cfg : RequestConfig) (server : PageInfo → IAPIResponse α × Int) :
    Nat → Machine α → Machine α
  | 0, m => m
  | n + 1, m => drive α cfg server n (exec α cfg server m).1

/-- The settlement behavior of a `finished()` promise. -/
inductive FinishedOutcome (α : Type) where
  | resolved (res : List α)
  | rejected (e : ReqError)
  | pending
  deriving Repr, DecidableEq

/-- Method `finished()` in the state-tracking revision: on `'complete::success'`
return `Promise.resolve(this.results())`, on `'complete::error'` return
`Promise.reject(this._receivedError)`; otherwise register completion and
error listeners and wait (`pending`). -/
def finished (α : Type) (m : Machine α) : FinishedOutcome α :=
  match m.state with
  | .completeSuccess => .resolved m.results
  | .completeError e => .rejected e
  | _ => .pending

/-- Whether the request is in a terminal (`complete::*`) state. -/
def RState.isTerminal : RState → Bool
  | .completeSuccess => true
  | .completeError _ => true
  | _ => false

/-! ## Synthetic paginated datasets

A server that splits a dataset into `pages` and answers the `j`-th page
request (identified by the `currentPage` the client carries, which equals
the number of pages already fetched) with the `j`-th page and well-formed
pagination metadata. -/

/-- The well-formed response for page index `i` (0-based) of a dataset
split into `pages`: the server reports 1-based page number `i + 1` out of
`pages.length`. -/
def pageResponse (α : Type) (pages : List (List α)) (i : Nat) : IAPIResponse α :=
  { data := .arr (pages.getD i [])
    error := none
    meta :=
      { result_count := some ((pages.getD i []).length : Int)
        page := some ((i : Int) + 1)
        page_count := some ((pages.length : Int)) } }

/-- A well-behaved paginated server with per-request durations `d`
(indexed by page index). -/
def pageServerD (α : Type) (pages : List (List α)) (d : Nat → Int) :
    PageInfo → IAPIResponse α × Int :=
  fun pi => (pageResponse α pages pi.currentPage.toNat, d pi.currentPage.toNat)

/-- A well-behaved paginated server whose requests answer instantly. -/
def pageServerW (α : Type) (pages : List (List α)) : PageInfo → IAPIResponse α × Int :=
  pageServerD α pages (fun _ => 0)

/-- The page info held by the client after `i` successful page advances
against a well-behaved paginated server (configuration with
`chunkSize > 0` and `limit < 0`). -/
def pageInfoAt (α : Type) (pages : List (List α)) : Nat → PageInfo
  | 0 => initPageInfo
  | i + 1 =>
    { currentOffset := (((pages.take (i + 1)).flatten).length : Int)
      resultCount := ((pages.getD i []).length : Int)
      currentPage := (i : Int) + 1
      totalPageCount := ((pages.length : Int))
      hasNextPage := decide (((i : Int) + 1) < ((pages.length : Int))) }

/-- The whole machine after `i` successful page advances against a
well-behaved paginated server. -/
def machAt (α : Type) (pages : List (List α)) (i : Nat) : Machine α :=
  { results := (pages.take i).flatten
    pageInfo := pageInfoAt α pages i
    state := if i = 0 then .queued else .started
    sent := (List.range i).map (pageInfoAt α pages) }

/-! ## Generic lemmas about `exec` and `drive` -/

theorem exec_of_terminal (α : Type) (cfg : RequestConfig)
    (server : PageInfo → IAPIResponse α × Int) (m : Machine α)
    (h : m.state.isTerminal = true) : exec α cfg server m = (m, .done) := by
  cases hs : m.state with
  | completeSuccess => simp [exec, hs]
  | completeError e => simp [exec, hs]
  | queued => simp [RState.isTerminal, hs] at h
  | started => simp [RState.isTerminal, hs] at h

theorem drive_of_terminal (α : Type) (cfg : RequestConfig)
    (server : PageInfo → IAPIResponse α × Int) (n : Nat) (m : Machine α)
    (h : m.state.isTerminal = true) : drive α cfg server n m = m := by
  induction n with
  | zero => rfl
  | succ n ih => rw [drive, exec_of_terminal α cfg server m h]; exact ih

theorem drive_add (α : Type) (cfg : RequestConfig)
    (server : PageInfo → IAPIResponse α × Int) :
    ∀ (a b : Nat) (m : Machine α),
      drive α cfg server (a + b) m = drive α cfg server b (drive α cfg server a m) := by
  intro a
  induction a with
  | zero => intro b m; rw [Nat.zero_add]; rfl
  | succ a ih =>
    intro b m
    rw [show a + 1 + b = (a + b) + 1 from by omega, drive, drive, ih]

theorem wrapTimeout_ok (α : Type) (t dur : Int) (resp : IAPIResponse α)
    (h : t ≤ 0 ∨ dur ≤ t) : wrapTimeout α t dur resp = .ok resp := by
  unfold wrapTimeout
  rcases h with h | h
  · rw [if_pos h]
  · by_cases h0 : t ≤ 0
    · rw [if_pos h0]
    · rw [if_neg h0, if_neg (by omega)]

theorem resolveHasNextPage_spec (cfg : RequestConfig)
    (hcs : 0 < cfg.chunkSize) (hl : cfg.limit < 0) (off p pc : Int) :
    resolveHasNextPage cfg off p pc = decide (p < pc) := by
  unfold resolveHasNextPage
  by_cases hik : p < pc
  · rw [if_neg, decide_eq_true hik]
    · simp only [decide_eq_true_eq]; omega
    · push_neg
      refine ⟨fun h => absurd h (by omega), by omega⟩
  · rw [if_pos (Or.inr (by omega)), eq_comm, decide_eq_false_iff_not]
    exact hik

theorem resolveTotalPageCount_spec (cfg : RequestConfig) (hl : cfg.limit < 0)
    (pc : Int) : resolveTotalPageCount cfg pc = pc := by
  unfold resolveTotalPageCount
  rw [if_neg]
  rintro ⟨h, -⟩
  omega

theorem flatten_take_succ (α : Type) (pages : List (List α)) (i : Nat) :
    (pages.take (i + 1)).flatten = (pages.take i).flatten ++ pages.getD i [] := by
  rw [List.take_succ, List.flatten_append, List.getD_eq_getElem?_getD]
  cases h : pages[i]? <;> simp [h]

/-- The one-page advance against a server that answers the `i`-th request
well-formedly: from stage `i`, `exec` yields page `i` and moves the
machine to stage `i + 1`. -/
theorem exec_machAt_yield (α : Type) (cfg : RequestConfig)
    (server : PageInfo → IAPIResponse α × Int) (pages : List (List α)) (i : Nat) (dur : Int)
    (hcs : 0 < cfg.chunkSize) (hl : cfg.limit < 0)
    (hnext : (pageInfoAt α pages i).hasNextPage = true)
    (hbnp : cfg.beforeNextPage (pageInfoAt α pages i) = true)
    (hserver : server (pageInfoAt α pages i) = (pageResponse α pages i, dur))
    (htime : cfg.timeout ≤ 0 ∨ dur ≤ cfg.timeout) :
    exec α cfg server (machAt α pages i) =
      (machAt α pages (i + 1), ExecOutcome.yielded (pages.getD i [])) := by
  have hwt := wrapTimeout_ok α cfg.timeout dur (pageResponse α pages i) htime
  have htp := resolveTotalPageCount_spec cfg hl ((pages.length : Int))
  have hlim : ¬ cfg.limit ≥ 0 := by omega
  have hflat := flatten_take_succ α pages i
  rcases i with _ | j
  · simp only [pageInfoAt] at hbnp hserver hnext
    simp only [machAt, pageInfoAt, exec]
    simp_all [resolveResults, resolveNextPageInfo, mergeResults, pageResponse,
      List.range_succ, pageInfoAt, resolveHasNextPage_spec cfg hcs hl, initPageInfo]
  · simp only [pageInfoAt] at hbnp hserver hnext
    simp only [machAt, pageInfoAt, exec]
    simp_all [resolveResults, resolveNextPageInfo, mergeResults, pageResponse,
      List.range_succ, pageInfoAt, resolveHasNextPage_spec cfg hcs hl, initPageInfo]

/-- When the loop guard fails at stage `i` — no next page, or the
`beforeNextPage` predicate refuses — the generator falls out of the loop,
`_handleComplete` runs, and `exec` reports `{ done: true }` without
issuing any request. -/
theorem exec_machAt_stop (α : Type) (cfg : RequestConfig)
    (server : PageInfo → IAPIResponse α × Int) (pages : List (List α)) (i : Nat)
    (hstop : (pageInfoAt α pages i).hasNextPage = false ∨
      cfg.beforeNextPage (pageInfoAt α pages i) = false) :
    exec α cfg server (machAt α pages i) =
      ({ machAt α pages i with state := .completeSuccess }, .done) := by
  rcases i with _ | j <;> rcases hstop with h | h <;>
    simp only [pageInfoAt] at h <;>
    simp_all [machAt, pageInfoAt, exec, initPageInfo]

/-- Driving `d` pages forward from stage `i`, against a server that is
well-behaved on the requested range, lands on stage `i + d`. -/
theorem drive_machAt (α : Type) (cfg : RequestConfig)
    (server : PageInfo → IAPIResponse α × Int) (pages : List (List α))
    (hcs : 0 < cfg.chunkSize) (hl : cfg.limit < 0) :
    ∀ (d i : Nat),
      (∀ i', i ≤ i' → i' < i + d →
        (pageInfoAt α pages i').hasNextPage = true ∧
        cfg.beforeNextPage (pageInfoAt α pages i') = true ∧
        ∃ dur, server (pageInfoAt α pages i') = (pageResponse α pages i', dur) ∧
          (cfg.timeout ≤ 0 ∨ dur ≤ cfg.timeout)) →
      drive α cfg server d (machAt α pages i) = machAt α pages (i + d) := by
  intro d
  induction d with
  | zero => intro i _; rfl
  | succ d ih =>
    intro i h
    obtain ⟨hnext, hbnp, dur, hserver, htime⟩ := h i (le_refl i) (by omega)
    rw [drive, exec_machAt_yield α cfg server pages i dur hcs hl hnext hbnp hserver htime]
    rw [show i + (d + 1) = (i + 1) + d from by omega]
    exact ih (i + 1) (fun i' h1 h2 => h i' (by omega) (by omega))

theorem pageInfoAt_currentPage_toNat (α : Type) (pages : List (List α)) (i : Nat) :
    (pageInfoAt α pages i).currentPage.toNat = i := by
  cases i <;> simp [pageInfoAt, initPageInfo]

/-- The well-behaved server with durations `d` answers the stage-`i`
request with page `i`. -/
theorem pageServerD_at (α : Type) (pages : List (List α)) (d : Nat → Int) (i : Nat) :
    pageServerD α pages d (pageInfoAt α pages i) = (pageResponse α pages i, d i) := by
  simp [pageServerD, pageInfoAt_currentPage_toNat]

theorem machAt_zero (α : Type) (pages : List (List α)) :
    machAt α pages 0 = initMachine α := rfl

/-! ## C1: draining a paginated dataset accumulates every page exactly once -/

/-- C1: for every dataset the server splits into `k` pages (any
configuration that keeps paginating: a true `beforeNextPage`, a positive
`chunkSize`, no `limit`), repeatedly calling the page-advance operation
`exec` until the iterator reports done leaves `results()` equal to the
concatenation of all `k` pages' data in request order — no page dropped,
none merged twice — and the request in the success-terminal state. -/
theorem exec_drain_concatenates_all_pages (α : Type) (cfg : RequestConfig)
    (pages : List (List α))
    (hbnp : ∀ pi, cfg.beforeNextPage pi = true)
    (hcs : 0 < cfg.chunkSize) (hl : cfg.limit < 0)
    (n : Nat) (hn : max pages.length 1 + 1 ≤ n) :
    (drive α cfg (pageServerW α pages) n (initMachine α)).results = pages.flatten ∧
    (drive α cfg (pageServerW α pages) n (initMachine α)).state = .completeSuccess ∧
    (exec α cfg (pageServerW α pages)
      (drive α cfg (pageServerW α pages) n (initMachine α))).2 = .done := by
  set M := max pages.length 1 with hM
  have hgood : ∀ i', 0 ≤ i' → i' < 0 + M →
      (pageInfoAt α pages i').hasNextPage = true ∧
      cfg.beforeNextPage (pageInfoAt α pages i') = true ∧
      ∃ dur, pageServerW α pages (pageInfoAt α pages i') = (pageResponse α pages i', dur) ∧
        (cfg.timeout ≤ 0 ∨ dur ≤ cfg.timeout) := by
    intro i' _ hi'
    refine ⟨?_, hbnp _, 0, ?_, by omega⟩
    · rcases i' with _ | j
      · rfl
      · simp only [pageInfoAt, decide_eq_true_eq]
        omega
    · simpa [pageServerW] using pageServerD_at α pages (fun _ => 0) i'
  have h1 : drive α cfg (pageServerW α pages) M (machAt α pages 0) = machAt α pages M := by
    have := drive_machAt α cfg (pageServerW α pages) pages hcs hl M 0 hgood
    simpa using this
  have hfalse : (pageInfoAt α pages M).hasNextPage = false := by
    rcases hM' : M with _ | j
    · omega
    · simp only [pageInfoAt, decide_eq_false_iff_not]
      omega
  have h2 := exec_machAt_stop α cfg (pageServerW α pages) pages M (Or.inl hfalse)
  have hterm : ({ machAt α pages M with state := .completeSuccess } : Machine α).state.isTerminal
      = true := rfl
  have hstep : drive α cfg (pageServerW α pages) (M + 1) (initMachine α) =
      { machAt α pages M with state := .completeSuccess } := by
    rw [drive_add α cfg (pageServerW α pages) M 1, ← machAt_zero, h1,
      show (1 : Nat) = 0 + 1 from rfl, drive, h2]
    rfl
  obtain ⟨r, rfl⟩ : ∃ r, n = (M + 1) + r := ⟨n - (M + 1), by omega⟩
  rw [drive_add α cfg (pageServerW α pages) (M + 1) r, hstep,
    drive_of_terminal α cfg (pageServerW α pages) r _ hterm,
    exec_of_terminal α cfg (pageServerW α pages) _ hterm]
  refine ⟨?_, rfl, rfl⟩
  simp only [machAt]
  rw [List.take_of_length_le (by omega)]

/-- Witness for C1 at a concrete input: two pages `[1, 2]` and `[3]`. -/
theorem exec_drain_concatenates_all_pages_witness :
    (drive Nat ⟨fun _ => true, 0, 1, -1⟩ (pageServerW Nat [[1, 2], [3]]) 3
      (initMachine Nat)).results = [1, 2, 3] ∧
    (drive Nat ⟨fun _ => true, 0, 1, -1⟩ (pageServerW Nat [[1, 2], [3]]) 3
      (initMachine Nat)).state = .completeSuccess ∧
    (exec Nat ⟨fun _ => true, 0, 1, -1⟩ (pageServerW Nat [[1, 2], [3]])
      (drive Nat ⟨fun _ => true, 0, 1, -1⟩ (pageServerW Nat [[1, 2], [3]]) 3
        (initMachine Nat))).2 = .done := by
  have h := exec_drain_concatenates_all_pages Nat ⟨fun _ => true, 0, 1, -1⟩ [[1, 2], [3]]
    (fun _ => rfl) (by decide) (by decide) 3 (by decide)
  simpa using h

/-! ## Failure steps of the page advance -/

/-- The machine left behind when the advance at stage `i` rejects with
error `e` holding results `res`: the request for page `i + 1` was issued,
the page info is unchanged, `_handleError` set the state. -/
def failedMachAt (α : Type) (pages : List (List α)) (i : Nat) (e : ReqError)
    (res : List α) : Machine α :=
  { results := res
    pageInfo := pageInfoAt α pages i
    state := .completeError e
    sent := (List.range (i + 1)).map (pageInfoAt α pages) }

/-- A page advance whose request outlasts a positive timeout: the
`Promise.race` in `_wrapTimeout` rejects, `_handleError` records the
timeout error, and the advance rejects.  The request *was* issued
(`sent` grows) but nothing is merged. -/
theorem exec_machAt_timeout (α : Type) (cfg : RequestConfig)
    (server : PageInfo → IAPIResponse α × Int) (pages : List (List α)) (i : Nat)
    (resp : IAPIResponse α) (dur : Int)
    (hnext : (pageInfoAt α pages i).hasNextPage = true)
    (hbnp : cfg.beforeNextPage (pageInfoAt α pages i) = true)
    (hserver : server (pageInfoAt α pages i) = (resp, dur))
    (ht : 0 < cfg.timeout) (hdur : dur > cfg.timeout) :
    exec α cfg server (machAt α pages i) =
      (failedMachAt α pages i .requestTimeout ((pages.take i).flatten),
        .failed .requestTimeout) := by
  have hwt : wrapTimeout α cfg.timeout dur resp = .error .requestTimeout := by
    unfold wrapTimeout
    rw [if_neg (by omega), if_pos hdur]
  rcases i with _ | j <;>
  · simp only [pageInfoAt] at hbnp hserver hnext
    simp only [machAt, pageInfoAt, failedMachAt, exec]
    simp_all [List.range_succ, pageInfoAt, initPageInfo]

/-- A page advance whose response has valid data but malformed pagination
metadata: `_resolveResults` and the merge into `_results` run *first*,
then `_resolveNextPageInfo` throws, so the page's data is already merged
when the advance rejects with the protocol error. -/
theorem exec_machAt_malformed (α : Type) (cfg : RequestConfig)
    (server : PageInfo → IAPIResponse α × Int) (pages : List (List α)) (i : Nat) (dur : Int)
    (hnext : (pageInfoAt α pages i).hasNextPage = true)
    (hbnp : cfg.beforeNextPage (pageInfoAt α pages i) = true)
    (hserver : server (pageInfoAt α pages i) =
      ({ pageResponse α pages i with
          meta := { (pageResponse α pages i).meta with page_count := none } }, dur))
    (htime : cfg.timeout ≤ 0 ∨ dur ≤ cfg.timeout) :
    exec α cfg server (machAt α pages i) =
      (failedMachAt α pages i .malformedResponse ((pages.take (i + 1)).flatten),
        .failed .malformedResponse) := by
  have hwt := wrapTimeout_ok α cfg.timeout dur
    ({ pageResponse α pages i with
        meta := { (pageResponse α pages i).meta with page_count := none } }) htime
  have hflat := flatten_take_succ α pages i
  rcases i with _ | j <;>
  · simp only [pageInfoAt] at hbnp hserver hnext
    simp only [machAt, pageInfoAt, failedMachAt, exec]
    simp_all [List.range_succ, pageInfoAt, initPageInfo, pageResponse,
      resolveResults, resolveNextPageInfo, mergeResults]

/-! ## C6: missing pagination metadata is a protocol error, not "done" -/

/-- C6: whenever a page response omits any of the numeric `result_count`,
`page`, `page_count` metadata fields (and the advance otherwise proceeds:
the fetch is not yet terminal, a next page is due, the predicate allows
it, no upstream error, no timeout), the advance rejects with the
`malformedResponse` protocol error and the fetch lands in the
error-terminal state — it is never treated as exhausted/done. -/
theorem malformed_meta_is_protocol_error (α : Type) (cfg : RequestConfig)
    (server : PageInfo → IAPIResponse α × Int) (m : Machine α)
    (resp : IAPIResponse α) (dur : Int)
    (hstate : m.state = .queued ∨ m.state = .started)
    (hnext : m.pageInfo.hasNextPage = true)
    (hbnp : cfg.beforeNextPage m.pageInfo = true)
    (hserver : server m.pageInfo = (resp, dur))
    (htime : cfg.timeout ≤ 0 ∨ dur ≤ cfg.timeout)
    (herr : resp.error = none)
    (hmeta : resp.meta.result_count = none ∨ resp.meta.page = none ∨
      resp.meta.page_count = none) :
    (exec α cfg server m).2 = .failed .malformedResponse ∧
    (exec α cfg server m).1.state = .completeError .malformedResponse := by
  have hwt := wrapTimeout_ok α cfg.timeout dur resp htime
  obtain ⟨data, err, ⟨rc, pg, pc⟩⟩ := resp
  rcases hstate with h | h <;> cases data <;> cases err <;> cases rc <;> cases pg <;>
    cases pc <;>
    simp_all [exec, resolveResults, resolveNextPageInfo, mergeResults]

/-- Witness for C6: a response carrying data but no `page_count`. -/
theorem malformed_meta_is_protocol_error_witness :
    (exec Nat ⟨fun _ => true, 0, 1, -1⟩
      (fun _ => (⟨.arr [7], none, ⟨some 1, some 1, none⟩⟩, 0)) (initMachine Nat)).2 =
        .failed .malformedResponse ∧
    (exec Nat ⟨fun _ => true, 0, 1, -1⟩
      (fun _ => (⟨.arr [7], none, ⟨some 1, some 1, none⟩⟩, 0)) (initMachine Nat)).1.state =
        .completeError .malformedResponse := by
  exact malformed_meta_is_protocol_error Nat ⟨fun _ => true, 0, 1, -1⟩
    (fun _ => (⟨.arr [7], none, ⟨some 1, some 1, none⟩⟩, 0)) (initMachine Nat)
    ⟨.arr [7], none, ⟨some 1, some 1, none⟩⟩ 0
    (Or.inl rfl) rfl rfl rfl (by decide) rfl (Or.inr (Or.inr rfl))

/-! ## C7: a refusing `beforeNextPage` stops the fetch early and cleanly -/

/-- C7: if the `beforeNextPage` predicate allows pages `1..i-1` but
returns false when consulted before page `i`, the fetch terminates in the
success-terminal state (the iterator reports done, `finished()` resolves),
`results()` equals the merge of pages `1..i-1` only, and no request for
page `i` is ever issued — exactly the `i - 1` requests for the earlier
pages are sent. -/
theorem beforeNextPage_false_stops_without_request (α : Type) (cfg : RequestConfig)
    (pages : List (List α)) (i : Nat)
    (hi1 : 1 ≤ i) (hik : i ≤ pages.length)
    (hallow : ∀ i', i' < i - 1 → cfg.beforeNextPage (pageInfoAt α pages i') = true)
    (hrefuse : cfg.beforeNextPage (pageInfoAt α pages (i - 1)) = false)
    (hcs : 0 < cfg.chunkSize) (hl : cfg.limit < 0)
    (n : Nat) (hn : i ≤ n) :
    (drive α cfg (pageServerW α pages) n (initMachine α)).results =
      (pages.take (i - 1)).flatten ∧
    (drive α cfg (pageServerW α pages) n (initMachine α)).state = .completeSuccess ∧
    (drive α cfg (pageServerW α pages) n (initMachine α)).sent =
      (List.range (i - 1)).map (pageInfoAt α pages) ∧
    (exec α cfg (pageServerW α pages)
      (drive α cfg (pageServerW α pages) n (initMachine α))).2 = .done ∧
    finished α (drive α cfg (pageServerW α pages) n (initMachine α)) =
      .resolved ((pages.take (i - 1)).flatten) := by
  have hgood : ∀ i', 0 ≤ i' → i' < 0 + (i - 1) →
      (pageInfoAt α pages i').hasNextPage = true ∧
      cfg.beforeNextPage (pageInfoAt α pages i') = true ∧
      ∃ dur, pageServerW α pages (pageInfoAt α pages i') = (pageResponse α pages i', dur) ∧
        (cfg.timeout ≤ 0 ∨ dur ≤ cfg.timeout) := by
    intro i' _ hi'
    refine ⟨?_, hallow i' (by omega), 0, ?_, by omega⟩
    · rcases i' with _ | j
      · rfl
      · simp only [pageInfoAt, decide_eq_true_eq]
        omega
    · simpa [pageServerW] using pageServerD_at α pages (fun _ => 0) i'
  have h1 : drive α cfg (pageServerW α pages) (i - 1) (machAt α pages 0) =
      machAt α pages (i - 1) := by
    have := drive_machAt α cfg (pageServerW α pages) pages hcs hl (i - 1) 0 hgood
    simpa using this
  have h2 := exec_machAt_stop α cfg (pageServerW α pages) pages (i - 1) (Or.inr hrefuse)
  have hterm : ({ machAt α pages (i - 1) with state := .completeSuccess } :
      Machine α).state.isTerminal = true := rfl
  have hstep : drive α cfg (pageServerW α pages) ((i - 1) + 1) (initMachine α) =
      { machAt α pages (i - 1) with state := .completeSuccess } := by
    rw [drive_add α cfg (pageServerW α pages) (i - 1) 1, ← machAt_zero, h1,
      show (1 : Nat) = 0 + 1 from rfl, drive, h2]
    rfl
  obtain ⟨r, rfl⟩ : ∃ r, n = ((i - 1) + 1) + r := ⟨n - ((i - 1) + 1), by omega⟩
  rw [drive_add α cfg (pageServerW α pages) ((i - 1) + 1) r, hstep,
    drive_of_terminal α cfg (pageServerW α pages) r _ hterm,
    exec_of_terminal α cfg (pageServerW α pages) _ hterm]
  exact ⟨rfl, rfl, rfl, rfl, rfl⟩

/-- Witness for C7: three pages, predicate refusing before page 2. -/
theorem beforeNextPage_false_stops_without_request_witness :
    (drive Nat ⟨fun pi => decide (pi.currentPage < 1), 0, 1, -1⟩
      (pageServerW Nat [[1], [2], [3]]) 2 (initMachine Nat)).results = [1] ∧
    (drive Nat ⟨fun pi => decide (pi.currentPage < 1), 0, 1, -1⟩
      (pageServerW Nat [[1], [2], [3]]) 2 (initMachine Nat)).state = .completeSuccess ∧
    (drive Nat ⟨fun pi => decide (pi.currentPage < 1), 0, 1, -1⟩
      (pageServerW Nat [[1], [2], [3]]) 2 (initMachine Nat)).sent =
      [pageInfoAt Nat [[1], [2], [3]] 0] := by
  have h := beforeNextPage_false_stops_without_request Nat
    ⟨fun pi => decide (pi.currentPage < 1), 0, 1, -1⟩ [[1], [2], [3]] 2
    (by decide) (by decide)
    (by intro i' h; have h0 : i' = 0 := by omega
        subst h0; decide)
    (by decide) (by decide) (by decide) 2 (by decide)
  refine ⟨?_, h.2.1, ?_⟩
  · rw [h.1]; decide
  · rw [h.2.2.1]; decide

/-! ## C4: a timed-out page request fails the fetch, keeping prior pages -/

/-- C4: with a positive timeout, if the page-`i` request takes longer
than the timeout while the earlier requests answered in time, then the
advance for page `i` rejects with the timeout error, the fetch
transitions to the error-terminal state, `results()` still equals the
merge of pages `1..i-1`, and `finished()` rejects with that error. -/
theorem timeout_fails_preserving_results (α : Type) (cfg : RequestConfig)
    (pages : List (List α)) (d : Nat → Int) (i : Nat)
    (hi1 : 1 ≤ i) (hik : i ≤ pages.length)
    (ht : 0 < cfg.timeout)
    (hfast : ∀ j, j < i - 1 → d j ≤ cfg.timeout)
    (hslow : d (i - 1) > cfg.timeout)
    (hbnp : ∀ pi, cfg.beforeNextPage pi = true)
    (hcs : 0 < cfg.chunkSize) (hl : cfg.limit < 0)
    (n : Nat) (hn : i ≤ n) :
    (exec α cfg (pageServerD α pages d)
      (drive α cfg (pageServerD α pages d) (i - 1) (initMachine α))).2 =
        .failed .requestTimeout ∧
    (drive α cfg (pageServerD α pages d) n (initMachine α)).state =
      .completeError .requestTimeout ∧
    (drive α cfg (pageServerD α pages d) n (initMachine α)).results =
      (pages.take (i - 1)).flatten ∧
    finished α (drive α cfg (pageServerD α pages d) n (initMachine α)) =
      .rejected .requestTimeout := by
  have hgood : ∀ i', 0 ≤ i' → i' < 0 + (i - 1) →
      (pageInfoAt α pages i').hasNextPage = true ∧
      cfg.beforeNextPage (pageInfoAt α pages i') = true ∧
      ∃ dur, pageServerD α pages d (pageInfoAt α pages i') = (pageResponse α pages i', dur) ∧
        (cfg.timeout ≤ 0 ∨ dur ≤ cfg.timeout) := by
    intro i' _ hi'
    refine ⟨?_, hbnp _, d i', pageServerD_at α pages d i', Or.inr (hfast i' (by omega))⟩
    rcases i' with _ | j
    · rfl
    · simp only [pageInfoAt, decide_eq_true_eq]
      omega
  have h1 : drive α cfg (pageServerD α pages d) (i - 1) (machAt α pages 0) =
      machAt α pages (i - 1) := by
    have := drive_machAt α cfg (pageServerD α pages d) pages hcs hl (i - 1) 0 hgood
    simpa using this
  have hnext : (pageInfoAt α pages (i - 1)).hasNextPage = true := by
    rcases hi : i - 1 with _ | j
    · rfl
    · simp only [pageInfoAt, decide_eq_true_eq]
      omega
  have h2 := exec_machAt_timeout α cfg (pageServerD α pages d) pages (i - 1)
    (pageResponse α pages (i - 1)) (d (i - 1)) hnext (hbnp _)
    (pageServerD_at α pages d (i - 1)) ht hslow
  have hterm : (failedMachAt α pages (i - 1) .requestTimeout
      ((pages.take (i - 1)).flatten)).state.isTerminal = true := rfl
  have hstep : drive α cfg (pageServerD α pages d) ((i - 1) + 1) (initMachine α) =
      failedMachAt α pages (i - 1) .requestTimeout ((pages.take (i - 1)).flatten) := by
    rw [drive_add α cfg (pageServerD α pages d) (i - 1) 1, ← machAt_zero, h1,
      show (1 : Nat) = 0 + 1 from rfl, drive, h2]
    rfl
  refine ⟨?_, ?_⟩
  · rw [← machAt_zero, h1, h2]
  · obtain ⟨r, rfl⟩ : ∃ r, n = ((i - 1) + 1) + r := ⟨n - ((i - 1) + 1), by omega⟩
    rw [drive_add α cfg (pageServerD α pages d) ((i - 1) + 1) r, hstep,
      drive_of_terminal α cfg (pageServerD α pages d) r _ hterm]
    exact ⟨rfl, rfl, rfl⟩

/-- Witness for C4: second of two pages times out (`timeout = 5`,
durations `0` then `10`). -/
theorem timeout_fails_preserving_results_witness :
    (exec Nat ⟨fun _ => true, 5, 1, -1⟩
      (pageServerD Nat [[1], [2]] (fun j => if j = 1 then 10 else 0))
      (drive Nat ⟨fun _ => true, 5, 1, -1⟩
        (pageServerD Nat [[1], [2]] (fun j => if j = 1 then 10 else 0)) 1
        (initMachine Nat))).2 = .failed .requestTimeout ∧
    (drive Nat ⟨fun _ => true, 5, 1, -1⟩
      (pageServerD Nat [[1], [2]] (fun j => if j = 1 then 10 else 0)) 2
      (initMachine Nat)).results = [1] := by
  have h := timeout_fails_preserving_results Nat ⟨fun _ => true, 5, 1, -1⟩ [[1], [2]]
    (fun j => if j = 1 then 10 else 0) 2 (by decide) (by decide) (by decide)
    (by intro j hj; have h0 : j = 0 := by omega
        subst h0; decide)
    (by decide) (fun _ => rfl) (by decide) (by decide) 2 (by decide)
  refine ⟨h.1, ?_⟩
  rw [h.2.2.1]
  decide

/-! ## C10 (implicit): the merge step precedes the metadata check -/

/-- A server that answers like the well-behaved paginated server except
that the response for page `i` (1-based), while carrying the page's data,
omits the `page_count` metadata field. -/
def malformedAtServer (α : Type) (pages : List (List α)) (i : Nat) :
    PageInfo → IAPIResponse α × Int :=
  fun pi =>
    (if pi.currentPage.toNat + 1 = i then
      { pageResponse α pages pi.currentPage.toNat with
          meta := { (pageResponse α pages pi.currentPage.toNat).meta with page_count := none } }
    else pageResponse α pages pi.currentPage.toNat, 0)

theorem malformedAtServer_at_ok (α : Type) (pages : List (List α)) (i i' : Nat)
    (h : i' + 1 ≠ i) :
    malformedAtServer α pages i (pageInfoAt α pages i') = (pageResponse α pages i', 0) := by
  simp [malformedAtServer, pageInfoAt_currentPage_toNat, h]

theorem malformedAtServer_at_bad (α : Type) (pages : List (List α)) (i : Nat)
    (h : 1 ≤ i) :
    malformedAtServer α pages i (pageInfoAt α pages (i - 1)) =
      ({ pageResponse α pages (i - 1) with
          meta := { (pageResponse α pages (i - 1)).meta with page_count := none } }, 0) := by
  simp [malformedAtServer, pageInfoAt_currentPage_toNat,
    show i - 1 + 1 = i from by omega]

/-- C10 (implicit claim): when the page-`i` response carries valid data
but malformed pagination metadata, the failure is raised only after that
page's data has been merged: on the malformed-response failure at page
`i`, `results()` equals the merge of pages `1..i`, including the
offending page's records — the merge step precedes the metadata check in
the advance sequence. -/
theorem malformed_page_merges_before_failing (α : Type) (cfg : RequestConfig)
    (pages : List (List α)) (i : Nat)
    (hi1 : 1 ≤ i) (hik : i ≤ pages.length)
    (hbnp : ∀ pi, cfg.beforeNextPage pi = true)
    (hcs : 0 < cfg.chunkSize) (hl : cfg.limit < 0)
    (n : Nat) (hn : i ≤ n) :
    (drive α cfg (malformedAtServer α pages i) n (initMachine α)).state =
      .completeError .malformedResponse ∧
    (drive α cfg (malformedAtServer α pages i) n (initMachine α)).results =
      (pages.take i).flatten := by
  have hgood : ∀ i', 0 ≤ i' → i' < 0 + (i - 1) →
      (pageInfoAt α pages i').hasNextPage = true ∧
      cfg.beforeNextPage (pageInfoAt α pages i') = true ∧
      ∃ dur, malformedAtServer α pages i (pageInfoAt α pages i') =
          (pageResponse α pages i', dur) ∧
        (cfg.timeout ≤ 0 ∨ dur ≤ cfg.timeout) := by
    intro i' _ hi'
    refine ⟨?_, hbnp _, 0, malformedAtServer_at_ok α pages i i' (by omega), by omega⟩
    rcases i' with _ | j
    · rfl
    · simp only [pageInfoAt, decide_eq_true_eq]
      omega
  have h1 : drive α cfg (malformedAtServer α pages i) (i - 1) (machAt α pages 0) =
      machAt α pages (i - 1) := by
    have := drive_machAt α cfg (malformedAtServer α pages i) pages hcs hl (i - 1) 0 hgood
    simpa using this
  have hnext : (pageInfoAt α pages (i - 1)).hasNextPage = true := by
    rcases hi : i - 1 with _ | j
    · rfl
    · simp only [pageInfoAt, decide_eq_true_eq]
      omega
  have h2 := exec_machAt_malformed α cfg (malformedAtServer α pages i) pages (i - 1) 0
    hnext (hbnp _) (malformedAtServer_at_bad α pages i hi1) (by omega)
  have hterm : (failedMachAt α pages (i - 1) .malformedResponse
      ((pages.take ((i - 1) + 1)).flatten)).state.isTerminal = true := rfl
  have hstep : drive α cfg (malformedAtServer α pages i) ((i - 1) + 1) (initMachine α) =
      failedMachAt α pages (i - 1) .malformedResponse
        ((pages.take ((i - 1) + 1)).flatten) := by
    rw [drive_add α cfg (malformedAtServer α pages i) (i - 1) 1, ← machAt_zero, h1,
      show (1 : Nat) = 0 + 1 from rfl, drive, h2]
    rfl
  obtain ⟨r, rfl⟩ : ∃ r, n = ((i - 1) + 1) + r := ⟨n - ((i - 1) + 1), by omega⟩
  rw [drive_add α cfg (malformedAtServer α pages i) ((i - 1) + 1) r, hstep,
    drive_of_terminal α cfg (malformedAtServer α pages i) r _ hterm,
    show (i - 1) + 1 = i from by omega]
  exact ⟨rfl, rfl⟩

/-- Witness for C10: two pages, the second response has data `[2]` but no
`page_count`; the final results contain both pages. -/
theorem malformed_page_merges_before_failing_witness :
    (drive Nat ⟨fun _ => true, 0, 1, -1⟩ (malformedAtServer Nat [[1], [2]] 2) 2
      (initMachine Nat)).state = .completeError .malformedResponse ∧
    (drive Nat ⟨fun _ => true, 0, 1, -1⟩ (malformedAtServer Nat [[1], [2]] 2) 2
      (initMachine Nat)).results = [1, 2] := by
  have h := malformed_page_merges_before_failing Nat ⟨fun _ => true, 0, 1, -1⟩
    [[1], [2]] 2 (by decide) (by decide) (fun _ => rfl) (by decide) (by decide) 2
    (by decide)
  refine ⟨h.1, ?_⟩
  rw [h.2]
  decide

/-! ## C5: `finished()` settles immediately on a terminal request -/

/-- C5: once a `PaginatedRequest` has reached a terminal state, a call to
`finished()` settles immediately, without waiting for any further event:
it resolves with the current (final) results when the fetch succeeded,
and rejects with the recorded error when it failed. -/
theorem finished_immediate_when_terminal (α : Type) (m : Machine α) :
    (m.state = .completeSuccess → finished α m = .resolved m.results) ∧
    (∀ e, m.state = .completeError e → finished α m = .rejected e) := by
  constructor
  · intro h
    simp [finished, h]
  · intro e h
    simp [finished, h]

/-- Witness for C5 at concrete terminal machines. -/
theorem finished_immediate_when_terminal_witness :
    finished Nat ⟨[5], initPageInfo, .completeSuccess, []⟩ = .resolved [5] ∧
    finished Nat ⟨[], initPageInfo, .completeError .requestTimeout, []⟩ =
      .rejected .requestTimeout :=
  ⟨(finished_immediate_when_terminal Nat ⟨[5], initPageInfo, .completeSuccess, []⟩).1 rfl,
    (finished_immediate_when_terminal Nat
      ⟨[], initPageInfo, .completeError .requestTimeout, []⟩).2 .requestTimeout rfl⟩

/-! ## Request queue (`BasicRequestQueue`)

The queue is a cooperative-concurrency state machine.  JavaScript runs
the synchronous stretches between `await` suspension points atomically,
so each such stretch is one transition.  Requests are identified by
`Nat` ids. -/

/-- The control position of the `_startFlush` coroutine:
at the top of `while (this._queue.length)` (`loopCheck`), suspended on
`await Promise.race(this._active)` — the optional throttle delay that
follows is a pure delay and is folded into this state (`racing`) — or
returned, which resolves the `flush()` promise (`returned`). -/
inductive FlushCtl where
  | loopCheck
  | racing
  | returned
  deriving Repr, DecidableEq

/-- How one in-flight `request.exec()` promise settles, as observed by
`_activateRequest`: the iterator yielded a page (`!curs.done`, the fetch
is re-enqueued), completed (`curs.done`), or rejected. -/
inductive SettleKind where
  | yielded
  | completed
  | failed
  deriving Repr, DecidableEq

/-- The scheduler state of a `BasicRequestQueue`: `queue` is `_queue`
(front = most recently `unshift`ed), `active` the requests whose `exec()`
promises sit in `_active`, `failed` and `completed` the terminal sets.
`racedOn` snapshots the `_active` array passed to `Promise.race` and
`raceResolved` records whether a member of that snapshot has settled
(which is what resolves the race). -/
structure QueueState where
  queue : List Nat
  active : List Nat
  failed : List Nat
  completed : List Nat
  ctl : FlushCtl
  racedOn : List Nat
  raceResolved : Bool
  deriving Repr, DecidableEq

/-- Condition `this._active.length < this._maxConcurrentRequests`, where `none`
models the default `Number.POSITIVE_INFINITY` (the constructor keeps the
default unless `config.maxConcurrentRequests` is a number `> 0`). -/
def ltMax (maxC : Option Nat) (n : Nat) : Bool :=
  match maxC with
  | none => true
  | some k => n < k

/-- The inner dispatch loop of `_startFlush`:
`while (active.length < maxConcurrentRequests && queue.length) activateRequest(queue.pop())`.
`pop()` takes from the back of `_queue`, so the loop walks the reversed
queue; `_activateRequest` synchronously calls `request.exec()` and pushes
the promise onto `_active`.  Arguments: the reversed queue and the active
list; returns the remaining reversed queue and the new active list. -/
def fillGo (maxC : Option Nat) : List Nat → List Nat → List Nat × List Nat
  | [], active => ([], active)
  | r :: rest, active =>
    if ltMax maxC active.length then fillGo maxC rest (active ++ [r])
    else (r :: rest, active)

/-- The effect of the dispatch loop on the whole scheduler state. -/
def fillActive (maxC : Option Nat) (s : QueueState) : QueueState :=
  { s with queue := (fillGo maxC s.queue.reverse s.active).1.reverse
           active := (fillGo maxC s.queue.reverse s.active).2 }

/-- The continuation of `_activateRequest` when its awaited `exec()`
promise settles: `if (!curs.done) this.enqueue(request)` (an `unshift`
onto `_queue`; the `_scheduleFlush` inside `enqueue` is a no-op while a
flush is current and restarts the flush loop when the previous flush
already returned), `else this._handleRequestComplete(request)`, on
rejection `this._handleRequestError(e, request)` (a push onto
`_completed` / `_failed`), and finally `this._removeActive(activeRequest)`.
If the settler belongs to the snapshot being raced on, the race resolves. -/
def settle (s : QueueState) (r : Nat) (k : SettleKind) : QueueState :=
  let s1 :=
    { s with active := s.active.erase r
             raceResolved :=
               if s.ctl = FlushCtl.racing ∧ r ∈ s.racedOn then true else s.raceResolved }
  match k with
  | .yielded =>
    { s1 with queue := r :: s1.queue
              ctl := if s1.ctl = FlushCtl.returned then FlushCtl.loopCheck else s1.ctl }
  | .completed => { s1 with completed := s1.completed ++ [r] }
  | .failed => { s1 with failed := s1.failed ++ [r] }

/-- One atomic step of the queue: a dispatch wave (the synchronous block
of `_startFlush` from the loop check down to the `Promise.race`), the
return of `_startFlush` when the loop guard fails, the continuation of a
settled `_activateRequest`, or the flush loop resuming once its race (and
the optional throttle delay) resolved. -/
inductive QStep (maxC : Option Nat) : QueueState → QueueState → Prop where
  | dispatch (s : QueueState) (h : s.ctl = .loopCheck) (hq : s.queue ≠ []) :
      QStep maxC s
        { fillActive maxC s with ctl := .racing
                                 racedOn := (fillActive maxC s).active
                                 raceResolved := false }
  | flushReturn (s : QueueState) (h : s.ctl = .loopCheck) (hq : s.queue = []) :
      QStep maxC s { s with ctl := .returned }
  | settleStep (s : QueueState) (r : Nat) (k : SettleKind) (hr : r ∈ s.active) :
      QStep maxC s (settle s r k)
  | raceContinue (s : QueueState) (h : s.ctl = .racing) (hres : s.raceResolved = true) :
      QStep maxC s { s with ctl := .loopCheck }

/-- Reachability under queue steps. -/
def QReach (maxC : Option Nat) : QueueState → QueueState → Prop :=
  Relation.ReflTransGen (QStep maxC)

theorem fillGo_active_le (K : Nat) :
    ∀ (rq active : List Nat), active.length ≤ K →
      (fillGo (some K) rq active).2.length ≤ K := by
  intro rq
  induction rq with
  | nil => intro active h; simpa [fillGo] using h
  | cons r rest ih =>
    intro active h
    rw [fillGo]
    split
    · next hlt =>
      apply ih
      simp only [ltMax, decide_eq_true_eq] at hlt
      simp [List.length_append]
      omega
    · exact h

theorem fillGo_perm (maxC : Option Nat) :
    ∀ (rq active : List Nat),
      ((fillGo maxC rq active).1 ++ (fillGo maxC rq active).2).Perm (rq ++ active) := by
  intro rq
  induction rq with
  | nil => intro active; simp [fillGo]
  | cons r rest ih =>
    intro active
    rw [fillGo]
    split
    · refine ((ih (active ++ [r])).trans ?_)
      have h1 : rest ++ (active ++ [r]) = (rest ++ active) ++ [r] := by simp
      have h2 : ((rest ++ active) ++ [r]).Perm ([r] ++ (rest ++ active)) :=
        List.perm_append_comm
      have h3 : [r] ++ (rest ++ active) = r :: rest ++ active := by simp
      rw [h1, ← h3]
      exact h2
    · simp

theorem fillActive_active_le (K : Nat) (s : QueueState) (h : s.active.length ≤ K) :
    (fillActive (some K) s).active.length ≤ K := by
  simpa [fillActive] using fillGo_active_le K s.queue.reverse s.active h

theorem fillActive_perm (maxC : Option Nat) (s : QueueState) :
    ((fillActive maxC s).queue ++ (fillActive maxC s).active).Perm
      (s.queue ++ s.active) := by
  have h1 : ((fillGo maxC s.queue.reverse s.active).1.reverse ++
      (fillGo maxC s.queue.reverse s.active).2).Perm
      ((fillGo maxC s.queue.reverse s.active).1 ++
        (fillGo maxC s.queue.reverse s.active).2) :=
    (List.reverse_perm _).append_right _
  have h2 := fillGo_perm maxC s.queue.reverse s.active
  have h3 : (s.queue.reverse ++ s.active).Perm (s.queue ++ s.active) :=
    (List.reverse_perm _).append_right _
  simpa [fillActive] using h1.trans (h2.trans h3)

/-! ## C2: the active set never exceeds `maxConcurrentRequests` -/

/-- C2: with `maxConcurrentRequests = K > 0`, in every state the
scheduler can reach from a state with no active fetch — whatever the
interleaving of enqueues, dispatch waves, settlements and race
resumptions — at most `K` fetches are simultaneously in the active set. -/
theorem active_bounded_by_maxConcurrent (K : Nat) (hK : 0 < K)
    (init s : QueueState) (hinit : init.active = [])
    (hreach : QReach (some K) init s) : s.active.length ≤ K := by
  induction hreach with
  | refl => simp [hinit]
  | tail hsteps hstep ih =>
    rename_i t u
    cases hstep with
    | dispatch h hq => simpa using fillActive_active_le K t ih
    | flushReturn h hq => simpa using ih
    | settleStep r k hr =>
      have he : (t.active.erase r).length ≤ t.active.length :=
        (List.erase_sublist r t.active).length_le
      cases k <;> simp [settle] <;> omega
    | raceContinue h hres => simpa using ih

/-- Witness for C2: two enqueued fetches, `K = 1`; after the dispatch
wave only one is active. -/
theorem active_bounded_by_maxConcurrent_witness :
    (⟨[1], [0], [], [], .racing, [0], false⟩ : QueueState).active.length ≤ 1 :=
  active_bounded_by_maxConcurrent 1 (by decide)
    ⟨[1, 0], [], [], [], .loopCheck, [], false⟩
    ⟨[1], [0], [], [], .racing, [0], false⟩ rfl
    (Relation.ReflTransGen.single
      (QStep.dispatch ⟨[1, 0], [], [], [], .loopCheck, [], false⟩ rfl (by decide)))

/-! ## The scheduler's structural invariant -/

/-- Well-formedness of the scheduler's shared sets: no request is tracked
twice between the waiting queue and the active set, and a failed request
is in neither. -/
def QInv (s : QueueState) : Prop :=
  (s.queue ++ s.active).Nodup ∧ ∀ r ∈ s.failed, r ∉ s.queue ∧ r ∉ s.active

theorem qstep_preserves_inv (maxC : Option Nat) (s s' : QueueState)
    (hstep : QStep maxC s s') (hinv : QInv s) : QInv s' := by
  obtain ⟨hnd, hfail⟩ := hinv
  cases hstep with
  | dispatch h hq =>
    have hperm := fillActive_perm maxC s
    constructor
    · simpa using hperm.nodup_iff.mpr hnd
    · intro r hr
      simp only at hr ⊢
      obtain ⟨h1, h2⟩ := hfail r hr
      have hnm : r ∉ (fillActive maxC s).queue ++ (fillActive maxC s).active := by
        rw [hperm.mem_iff]
        simp [h1, h2]
      simp only [List.mem_append] at hnm
      push_neg at hnm
      exact hnm
  | flushReturn h hq => exact ⟨hnd, hfail⟩
  | raceContinue h hres => exact ⟨hnd, hfail⟩
  | settleStep r k hr =>
    rw [List.nodup_append] at hnd
    obtain ⟨hndq, hnda, hdisj⟩ := hnd
    have hrq : r ∉ s.queue := fun hmem => hdisj hmem hr
    have hndq_e : ((s.queue ++ s.active.erase r)).Nodup := by
      rw [List.nodup_append]
      exact ⟨hndq, hnda.erase r,
        fun a ha hae => hdisj ha ((List.erase_sublist r s.active).mem hae)⟩
    have hre : r ∉ s.active.erase r := fun hmem =>
      (absurd ((hnda.mem_erase_iff).mp hmem).1 (by simp))
    cases k with
    | yielded =>
      constructor
      · simp only [settle]
        have hperm : (r :: (s.queue ++ s.active.erase r)).Perm
            (s.queue ++ s.active) := by
          refine (List.perm_middle.symm).trans ?_
          exact (List.perm_cons_erase hr).symm.append_left s.queue
        have : (r :: (s.queue ++ s.active.erase r)).Nodup :=
          hperm.nodup_iff.mpr (List.nodup_append.mpr ⟨hndq, hnda, hdisj⟩)
        simpa using this
      · intro rf hrf
        simp only [settle] at hrf ⊢
        obtain ⟨h1, h2⟩ := hfail rf hrf
        refine ⟨?_, fun hmem => h2 ((List.erase_sublist r s.active).mem hmem)⟩
        simp only [List.mem_cons]
        rintro (rfl | hmem)
        · exact h2 hr
        · exact h1 hmem
    | completed =>
      refine ⟨by simpa [settle] using hndq_e, ?_⟩
      intro rf hrf
      simp only [settle] at hrf ⊢
      obtain ⟨h1, h2⟩ := hfail rf hrf
      exact ⟨h1, fun hmem => h2 ((List.erase_sublist r s.active).mem hmem)⟩
    | failed =>
      refine ⟨by simpa [settle] using hndq_e, ?_⟩
      intro rf hrf
      simp only [settle, List.mem_append, List.mem_singleton] at hrf
      rcases hrf with hrf | rfl
      · obtain ⟨h1, h2⟩ := hfail rf hrf
        exact ⟨h1, fun hmem => h2 ((List.erase_sublist r s.active).mem hmem)⟩
      · exact ⟨hrq, hre⟩

theorem qreach_preserves_inv (maxC : Option Nat) (init s : QueueState)
    (hinit : QInv init) (hreach : QReach maxC init s) : QInv s := by
  induction hreach with
  | refl => exact hinit
  | tail hsteps hstep ih => exact qstep_preserves_inv maxC _ _ hstep ih

/-! ## C8: failure isolation in the scheduler -/

/-- C8 (amended): in every reachable scheduler state (from a well-formed
start), (1) a fetch in the failed set is in neither the waiting queue nor
the active set — it is never re-enqueued or retried; (2) when an active
fetch's advance rejects, its settlement pushes exactly that fetch onto
the failed set and leaves the waiting queue and all sibling active
fetches untouched; (3) the flush loop returns only when the waiting
queue is empty — active fetches may still be in flight at that moment. -/
theorem failed_isolated_and_flush_drains_queue (maxC : Option Nat)
    (init s : QueueState) (hinit : QInv init) (hreach : QReach maxC init s) :
    (∀ r ∈ s.failed, r ∉ s.queue ∧ r ∉ s.active) ∧
    (∀ r, r ∈ s.active →
      (settle s r .failed).failed = s.failed ++ [r] ∧
      (settle s r .failed).queue = s.queue ∧
      (settle s r .failed).active = s.active.erase r) ∧
    (∀ s', QStep maxC s s' → s.ctl ≠ .returned → s'.ctl = .returned →
      s.queue = []) := by
  refine ⟨(qreach_preserves_inv maxC init s hinit hreach).2, ?_, ?_⟩
  · intro r _
    exact ⟨rfl, rfl, rfl⟩
  · intro s' hstep hne hret
    cases hstep with
    | dispatch h hq => simp at hret
    | flushReturn h hq => exact hq
    | settleStep r k hr =>
      cases k with
      | yielded =>
        simp only [settle] at hret
        split at hret
        · simp at hret
        · exact absurd hret hne
      | completed => exact absurd hret hne
      | failed => exact absurd hret hne
    | raceContinue h hres => simp at hret

/-- Witness for the amended C8 at a concrete state: one failed fetch
`1`, one active fetch `2`; failing `2` appends it to the failed set. -/
theorem failed_isolated_and_flush_drains_queue_witness :
    ((1 : Nat) ∉ (⟨[], [2], [1], [], .loopCheck, [], false⟩ : QueueState).queue ∧
      (1 : Nat) ∉ (⟨[], [2], [1], [], .loopCheck, [], false⟩ : QueueState).active) ∧
    (settle ⟨[], [2], [1], [], .loopCheck, [], false⟩ 2 .failed).failed = [1] ++ [2] := by
  have h := failed_isolated_and_flush_drains_queue none
    ⟨[], [2], [1], [], .loopCheck, [], false⟩ ⟨[], [2], [1], [], .loopCheck, [], false⟩
    (by constructor
        · decide
        · intro r hr
          simp only [List.mem_singleton] at hr
          subst hr
          exact ⟨by decide, by decide⟩)
    Relation.ReflTransGen.refl
  exact ⟨h.1 1 (by decide), (h.2.1 2 (by decide)).1⟩

/-- Counterexample to C8 as stated: `flush()` can return while a fetch is
still active.  With `maxConcurrentRequests = 2` and fetches `0` and `1`
enqueued (in that order), the dispatch wave activates both; fetch `1`'s
advance rejects, which moves it to the failed set and resolves the race;
the loop check then sees an empty waiting queue and `_startFlush`
returns — while fetch `0` is still in the active set. -/
theorem flush_returns_while_fetch_still_active :
    QReach (some 2)
      ⟨[1, 0], [], [], [], .loopCheck, [], false⟩
      ⟨[], [0], [1], [], .returned, [0, 1], true⟩ ∧
    (⟨[], [0], [1], [], .returned, [0, 1], true⟩ : QueueState).ctl = .returned ∧
    (⟨[], [0], [1], [], .returned, [0, 1], true⟩ : QueueState).active ≠ [] := by
  refine ⟨?_, rfl, by decide⟩
  have step1 : QStep (some 2)
      (⟨[1, 0], [], [], [], .loopCheck, [], false⟩ : QueueState)
      (⟨[], [0, 1], [], [], .racing, [0, 1], false⟩ : QueueState) :=
    QStep.dispatch ⟨[1, 0], [], [], [], .loopCheck, [], false⟩ rfl (by decide)
  have step2 : QStep (some 2)
      (⟨[], [0, 1], [], [], .racing, [0, 1], false⟩ : QueueState)
      (⟨[], [0], [1], [], .racing, [0, 1], true⟩ : QueueState) :=
    QStep.settleStep ⟨[], [0, 1], [], [], .racing, [0, 1], false⟩ 1 .failed (by decide)
  have step3 : QStep (some 2)
      (⟨[], [0], [1], [], .racing, [0, 1], true⟩ : QueueState)
      (⟨[], [0], [1], [], .loopCheck, [0, 1], true⟩ : QueueState) :=
    QStep.raceContinue ⟨[], [0], [1], [], .racing, [0, 1], true⟩ rfl rfl
  have step4 : QStep (some 2)
      (⟨[], [0], [1], [], .loopCheck, [0, 1], true⟩ : QueueState)
      (⟨[], [0], [1], [], .returned, [0, 1], true⟩ : QueueState) :=
    QStep.flushReturn ⟨[], [0], [1], [], .loopCheck, [0, 1], true⟩ rfl rfl
  exact Relation.ReflTransGen.tail
    (Relation.ReflTransGen.tail
      (Relation.ReflTransGen.tail (Relation.ReflTransGen.single step1) step2) step3)
    step4

/-! ## Content mesh: nodes, collections and relation resolvers

Record field values are modelled as optional strings (`none` = the field
is absent / `null`); primary keys are strings (spec §3). -/

/-- JavaScript truthiness of an optional string: `undefined`/`null` and
the empty string are falsy. -/
def truthy : Option String → Bool
  | none => false
  | some s => !(s == "")

/-- A `ContentNode`: its `primaryKey` getter and its `contents` record,
seen as a map from field name to value. -/
structure ContentNode where
  primaryKey : String
  contents : String → Option String

/-- Lookup `node.contents[f]` where `f` may itself be `undefined` (indexing with
`undefined` finds nothing). -/
def contentsAt (n : ContentNode) (f : Option String) : Option String :=
  match f with
  | some s => n.contents s
  | none => none

/-- Modelled from the spec: the `ContentCollection` class is not among
the provided sources (only its callers are).  Spec §3: a collection is
`{ name, primaryKeyField, isJunction, nodes: mapping primaryKey→ContentNode }`
with primary keys unique within a collection; `getNodes()` returns the
nodes and `getByPrimaryKey` looks a node up by its key. -/
structure ContentCollection where
  name : String
  nodes : List ContentNode

/-- Modelled from the spec: `getNodes()`. -/
def ContentCollection.getNodes (c : ContentCollection) : List ContentNode := c.nodes

/-- Modelled from the spec: `getByPrimaryKey`, lookup in the
primary-key→node mapping. -/
def ContentCollection.getByPrimaryKey (c : ContentCollection) (pk : String) :
    Option ContentNode :=
  c.nodes.find? (fun n => n.primaryKey == pk)

/-- Primary keys are unique within a collection (spec §3). -/
def uniqueKeys (c : ContentCollection) : Prop :=
  (c.nodes.map ContentNode.primaryKey).Nodup

theorem find?_key_eq_self_of_nodup (l : List ContentNode) (n : ContentNode)
    (hu : (l.map ContentNode.primaryKey).Nodup) (hn : n ∈ l) :
    l.find? (fun m => m.primaryKey == n.primaryKey) = some n := by
  induction l with
  | nil => cases hn
  | cons a rest ih =>
    simp only [List.map_cons, List.nodup_cons] at hu
    obtain ⟨hna, hrest⟩ := hu
    rcases List.mem_cons.mp hn with rfl | hmem
    · simp [List.find?]
    · have hne : (a.primaryKey == n.primaryKey) = false := by
        rw [beq_eq_false_iff_ne]
        intro he
        exact hna (he ▸ List.mem_map_of_mem ContentNode.primaryKey hmem)
      rw [List.find?_cons_of_neg _ (by simp [hne])]
      exact ih hrest hmem

theorem getByPrimaryKey_self (c : ContentCollection) (n : ContentNode)
    (hu : uniqueKeys c) (hn : n ∈ c.nodes) :
    c.getByPrimaryKey n.primaryKey = some n :=
  find?_key_eq_self_of_nodup c.nodes n hu hn

/-- The `'src' | 'dest'` table-type argument of the relation resolvers. -/
inductive TableType where
  | src
  | dest
  deriving Repr, DecidableEq

/-- Class `JunctionContentRelation`: the base-class fields `_srcTable`,
`_destTable`, `_srcField`, `_destField` (the latter two used only for
logging in this resolver) plus `_junctionTable`, `_srcJunctionField`,
`_destJunctionField`. -/
structure JunctionContentRelation where
  srcTable : ContentCollection
  destTable : ContentCollection
  junctionTable : ContentCollection
  srcField : String
  destField : String
  srcJunctionField : String
  destJunctionField : String

/-- Method `JunctionContentRelation._getRelatedJunctionRecords`: the junction
rows whose two foreign-key fields are non-null and whose target-side
field strictly equals the queried id, mapped to their contents. -/
def JunctionContentRelation.getRelatedJunctionRecords
    (R : JunctionContentRelation) (targetId : String) (tableType : TableType) :
    List (String → Option String) :=
  let targetJuncField :=
    match tableType with
    | .src => R.destJunctionField
    | .dest => R.srcJunctionField
  let destJuncField :=
    match tableType with
    | .src => R.srcJunctionField
    | .dest => R.destJunctionField
  (R.junctionTable.getNodes.filter (fun r =>
    (r.contents destJuncField).isSome && (r.contents targetJuncField).isSome &&
      (r.contents targetJuncField == some targetId))).map ContentNode.contents

/-- Method `JunctionContentRelation._resolveJunctionNodes`: resolve the two
endpoint nodes named by a junction row (`src` via the row's
`_destJunctionField`, `dest` via the row's `_srcJunctionField`); a
missing key resolves to nothing. -/
def JunctionContentRelation.resolveJunctionNodes (R : JunctionContentRelation)
    (junctionRecord : String → Option String) :
    Option ContentNode × Option ContentNode :=
  ((match junctionRecord R.destJunctionField with
    | some v => R.srcTable.getByPrimaryKey v
    | none => none),
   (match junctionRecord R.srcJunctionField with
    | some v => R.destTable.getByPrimaryKey v
    | none => none))

/-- Method `JunctionContentRelation._resolveNodeRelation`: resolve every related
junction row to its counterpart node and drop the unresolved ones. -/
def JunctionContentRelation.resolveNodeRelation (R : JunctionContentRelation)
    (node : ContentNode) (tableType : TableType) : List ContentNode :=
  (((R.getRelatedJunctionRecords node.primaryKey tableType).map
      R.resolveJunctionNodes).map (fun p =>
        match tableType with
        | .src => p.2
        | .dest => p.1)).filterMap id

/-! ## C3: junction-relation resolution is symmetric -/

/-- C3: for a junction relation between collections A and B via a
junction table, and an A-node `a` (primary keys being unique within A),
if resolving the relation from `a` on the src side yields a B-node `b`,
then resolving from `b` on the dest side yields `a` among its results. -/
theorem junction_resolution_symmetric (R : JunctionContentRelation)
    (a b : ContentNode)
    (ha : a ∈ R.srcTable.nodes) (hu : uniqueKeys R.srcTable)
    (hb : b ∈ R.resolveNodeRelation a .src) :
    a ∈ R.resolveNodeRelation b .dest := by
  unfold JunctionContentRelation.resolveNodeRelation at hb ⊢
  rw [List.mem_filterMap] at hb
  obtain ⟨o, ho, hob⟩ := hb
  rw [List.mem_map] at ho
  obtain ⟨p, hp, hpo⟩ := ho
  rw [List.mem_map] at hp
  obtain ⟨rec, hrec, hrecp⟩ := hp
  unfold JunctionContentRelation.getRelatedJunctionRecords at hrec
  simp only [List.mem_map, List.mem_filter, Bool.and_eq_true, beq_iff_eq] at hrec
  obtain ⟨j, ⟨hjmem, ⟨hsome1, hsome2⟩, htarget⟩, hjrec⟩ := hrec
  subst hjrec
  subst hrecp
  simp only [id] at hob
  subst hob
  -- the dest-side junction row names `b` on its `srcJunctionField`
  obtain ⟨v, hv⟩ := Option.isSome_iff_exists.mp hsome1
  have hlook : (match j.contents R.srcJunctionField with
      | some v => R.destTable.getByPrimaryKey v
      | none => none) = some b := by
    simpa [JunctionContentRelation.resolveJunctionNodes] using hpo
  rw [hv] at hlook
  simp only at hlook
  unfold ContentCollection.getByPrimaryKey at hlook
  have hbv : b.primaryKey = v := by
    have hfind := List.find?_some hlook
    simpa [beq_iff_eq] using hfind
  rw [List.mem_filterMap]
  refine ⟨some a, ?_, rfl⟩
  rw [List.mem_map]
  refine ⟨R.resolveJunctionNodes j.contents, ?_, ?_⟩
  · rw [List.mem_map]
    refine ⟨j.contents, ?_, rfl⟩
    unfold JunctionContentRelation.getRelatedJunctionRecords
    simp only [List.mem_map, List.mem_filter, Bool.and_eq_true, beq_iff_eq]
    exact ⟨j, ⟨hjmem, ⟨hsome2, hsome1⟩, by rw [hv, hbv]⟩, rfl⟩
  · simp only [JunctionContentRelation.resolveJunctionNodes, htarget]
    exact getByPrimaryKey_self R.srcTable a hu ha

/-- A-node for the C3 witness instance. -/
def witNodeA : ContentNode := ⟨"a1", fun _ => none⟩

/-- B-node for the C3 witness instance. -/
def witNodeB : ContentNode := ⟨"b1", fun _ => none⟩

/-- Junction row linking `witNodeA` and `witNodeB`. -/
def witNodeJ : ContentNode :=
  ⟨"j1", fun f => if f = "aId" then some "a1" else if f = "bId" then some "b1" else none⟩

/-- The C3 witness relation: `A ↔ B` via junction rows whose
`destJunctionField` (`"aId"`) holds A-keys and whose `srcJunctionField`
(`"bId"`) holds B-keys. -/
def witJunctionRel : JunctionContentRelation :=
  ⟨⟨"A", [witNodeA]⟩, ⟨"B", [witNodeB]⟩, ⟨"J", [witNodeJ]⟩, "bs", "as", "bId", "aId"⟩

/-- Witness for C3 on the concrete one-row junction instance. -/
theorem junction_resolution_symmetric_witness :
    witNodeA ∈ witJunctionRel.resolveNodeRelation witNodeB .dest := by
  apply junction_resolution_symmetric witJunctionRel witNodeA witNodeB
  · simp [witJunctionRel]
  · simp [uniqueKeys, witJunctionRel]
  · show witNodeB ∈ witJunctionRel.resolveNodeRelation witNodeA .src
    have : witJunctionRel.resolveNodeRelation witNodeA .src = [witNodeB] := by
      simp [witJunctionRel, JunctionContentRelation.resolveNodeRelation,
        JunctionContentRelation.getRelatedJunctionRecords,
        JunctionContentRelation.resolveJunctionNodes,
        ContentCollection.getNodes, ContentCollection.getByPrimaryKey,
        witNodeA, witNodeB, witNodeJ, List.filter, List.find?]
    rw [this]
    exact List.mem_singleton.mpr rfl

/-! ## Simple (one-to-many) relation -/

/-- The result type of `_resolveNodeRelation`:
`void | ContentNode | ContentNode[]`. -/
inductive RelResult where
  | none
  | one (n : ContentNode)
  | many (l : List ContentNode)

/-- Class `SimpleContentRelation` (the revision of
`src/content-mesh/content-relation/simple-relation/index.ts` that guards
a missing `destField`): the base-class fields.  The field names are
optional to cover the `if (!destField)` / `if (!this._destField)` guards;
JavaScript's `!` is also true on the empty string, hence `truthy`. -/
structure SimpleContentRelation where
  srcTable : ContentCollection
  destTable : ContentCollection
  srcField : Option String
  destField : Option String

/-- Method `SimpleContentRelation._getRelatedRecords`: void when the relevant
field is falsy (`if (!destField) { return; }`), otherwise the nodes of
the opposite table whose `destField` value strictly equals the queried
id. -/
def SimpleContentRelation.getRelatedRecords (R : SimpleContentRelation)
    (targetId : String) (tableType : TableType) : Option (List ContentNode) :=
  let destField :=
    match tableType with
    | .src => R.destField
    | .dest => R.srcField
  let destTable :=
    match tableType with
    | .src => R.destTable
    | .dest => R.srcTable
  if truthy destField then
    some (destTable.getNodes.filter (fun n => contentsAt n destField == some targetId))
  else none

/-- Method `SimpleContentRelation._resolveNodeRelation`: on the src side, return
`_getRelatedRecords(node.primaryKey, 'src')` (void or an array); on the
dest side, guard `destField`, read `existing = node.contents[destField]`,
and when `existing` is truthy return
`this._srcTable.getByPrimaryKey(existing)` (a node or void). -/
def SimpleContentRelation.resolveNodeRelation (R : SimpleContentRelation)
    (node : ContentNode) (tableType : TableType) : RelResult :=
  match tableType with
  | .src =>
    match R.getRelatedRecords node.primaryKey .src with
    | some l => .many l
    | Option.none => .none
  | .dest =>
    if truthy R.destField then
      match contentsAt node R.destField with
      | some v =>
        if v == "" then .none
        else
          match R.srcTable.getByPrimaryKey v with
          | some n => .one n
          | Option.none => .none
      | Option.none => .none
    else .none

/-! ## C9: simple-relation src/dest round trip -/

/-- Src node with an empty-string primary key for the C9 counterexample. -/
def emptyKeyNodeS : ContentNode := ⟨"", fun _ => none⟩

/-- Dest node referencing the empty key for the C9 counterexample. -/
def emptyKeyNodeD : ContentNode :=
  ⟨"d1", fun f => if f = "author" then some "" else none⟩

/-- The C9 counterexample relation. -/
def emptyKeyRel : SimpleContentRelation :=
  ⟨⟨"S", [emptyKeyNodeS]⟩, ⟨"D", [emptyKeyNodeD]⟩, some "posts", some "author"⟩

/-- Counterexample to C9 as stated: for a src node whose primary key is
the empty string, the src side returns a dest node (the strict equality
`n.contents[destField] === targetId` matches `""`), but resolving that
dest node on the dest side returns void — the `if (existing)` truthiness
guard drops the empty string — not the src node. -/
theorem simple_relation_roundtrip_fails_on_empty_key :
    emptyKeyRel.resolveNodeRelation emptyKeyNodeS .src = .many [emptyKeyNodeD] ∧
    emptyKeyRel.resolveNodeRelation emptyKeyNodeD .dest = .none :=
  ⟨rfl, rfl⟩

/-- C9 (amended): for a simple relation and a src node `s` with a
*truthy* (non-empty) primary key, unique within its collection: every
dest node `d` returned by resolving from `s` on the src side, when itself
resolved on the dest side, yields exactly `s` — the single src node whose
primary key equals `d`'s `destField` value. -/
theorem simple_relation_roundtrip_on_truthy_key (R : SimpleContentRelation)
    (s d : ContentNode) (l : List ContentNode)
    (hs : s ∈ R.srcTable.nodes) (hu : uniqueKeys R.srcTable)
    (hpk : s.primaryKey ≠ "")
    (hres : R.resolveNodeRelation s .src = .many l) (hd : d ∈ l) :
    R.resolveNodeRelation d .dest = .one s := by
  unfold SimpleContentRelation.resolveNodeRelation
    SimpleContentRelation.getRelatedRecords at hres
  simp only at hres
  by_cases ht : truthy R.destField
  case neg =>
    rw [if_neg ht] at hres
    simp at hres
  rw [if_pos ht] at hres
  simp only [RelResult.many.injEq] at hres
  subst hres
  rw [List.mem_filter] at hd
  obtain ⟨hdmem, hdval⟩ := hd
  rw [beq_iff_eq] at hdval
  have hpkne : (s.primaryKey == "") = false := by
    rw [beq_eq_false_iff_ne]
    exact hpk
  unfold SimpleContentRelation.resolveNodeRelation
  simp only [if_pos ht, hdval, hpkne, Bool.false_eq_true, if_false,
    getByPrimaryKey_self R.srcTable s hu hs]

/-- Src and dest nodes for the C9 witness instance. -/
def witSimpleS : ContentNode := ⟨"s1", fun _ => none⟩

/-- Dest node referencing `witSimpleS` for the C9 witness instance. -/
def witSimpleD : ContentNode :=
  ⟨"d1", fun f => if f = "author" then some "s1" else none⟩

/-- The C9 witness relation. -/
def witSimpleRel : SimpleContentRelation :=
  ⟨⟨"S", [witSimpleS]⟩, ⟨"D", [witSimpleD]⟩, some "posts", some "author"⟩

/-- Witness for the amended C9 on a concrete instance. -/
theorem simple_relation_roundtrip_on_truthy_key_witness :
    witSimpleRel.resolveNodeRelation witSimpleD .dest = .one witSimpleS := by
  apply simple_relation_roundtrip_on_truthy_key witSimpleRel witSimpleS witSimpleD
    [witSimpleD]
  · simp [witSimpleRel]
  · simp [uniqueKeys, witSimpleRel]
  · decide
  · rfl
  · exact List.mem_singleton.mpr rfl

end GatsbySource
